import Mathlib

/-!
Shallow embedding of evsieve's `src/stream/hook.rs`: the per-input
activation detector (`Tracker`), the multi-input condition aggregator
(`Trigger`), the synthesized-event generator (`EventDispatcher`) and the
orchestrator (`Hook`).  External collaborator types (Key, Range, Event,
Capability, the loopback timer service) are modelled at their interface
boundary; Rust's in-place mutation becomes explicit state passing.
-/

set_option autoImplicit false

/-- Model of `loopback::Token`: an opaque, equality-comparable identifier.
The loopback model below hands out distinct naturals, so tokens are unique. -/
abbrev Token := Nat

/-- Model of `time::Duration`: opaque, only stored and passed along. -/
abbrev Duration := Nat

/-- Model of `event::Channel`: opaque routing datum. -/
abbrev Channel := Nat

/-- Model of the event flag set; only the `Withholdable` flag is consulted by
this part of the code, so the flag set is that single bit. -/
structure EventFlags where
  withholdable : Bool
deriving DecidableEq, Repr

/-- Corresponds to `flags.set(EventFlag::Withholdable)`. -/
def EventFlags.setWithholdable (_f : EventFlags) : EventFlags :=
  ⟨true⟩

/-- Corresponds to `flags.unset(EventFlag::Withholdable)`. -/
def EventFlags.unsetWithholdable (_f : EventFlags) : EventFlags :=
  ⟨false⟩

/-- Model of `event::Event`: immutable value type
{channel, input identity (code), integer value, flags}. -/
structure Event where
  channel : Channel
  code : Nat
  value : Int
  flags : EventFlags
deriving DecidableEq, Repr

/-- Model of `range::Range`: a numeric interval with optional bounds;
`Range::new(Some(1), None)` is the default activation range of a tracker. -/
structure Range where
  low : Option Int
  high : Option Int
deriving DecidableEq, Repr

def Range.new (low high : Option Int) : Range := ⟨low, high⟩

/-- `Range::contains`. -/
def Range.contains (r : Range) (v : Int) : Bool :=
  (match r.low with | some lo => decide (lo ≤ v) | none => true) &&
  (match r.high with | some hi => decide (v ≤ hi) | none => true)

/-- Model of `capability::Capability`: a device-advertised
{input identity, value range} descriptor. -/
structure Capability where
  code : Nat
  value_range : Range
deriving DecidableEq, Repr

/-- Model of `capability::CapMatch`: tri-state with total order Yes > Maybe > No. -/
inductive CapMatch where
  | No
  | Maybe
  | Yes
deriving DecidableEq, Repr

def CapMatch.toNat : CapMatch → Nat
  | .No => 0
  | .Maybe => 1
  | .Yes => 2

/-- The max of two `CapMatch` values under the order Yes > Maybe > No. -/
def CapMatch.max (a b : CapMatch) : CapMatch :=
  if a.toNat ≤ b.toNat then b else a

/-- Rust's `Iterator::max` over `CapMatch` values: `None` on an empty
iterator, otherwise the maximum. -/
def CapMatch.listMax : List CapMatch → Option CapMatch
  | [] => none
  | m :: rest =>
    match CapMatch.listMax rest with
    | none => some m
    | some m2 => some (CapMatch.max m m2)

/-- Model of `key::Key` at its interface boundary (spec section 6): an
input-identity matcher bundling the operations this core consumes.  The
function fields describe the behaviour of the key after its value range has
been popped off (which is how every key stored in a tracker is used);
`pop_value` is the optional attached value range that `Key::pop_value`
would remove and return. -/
structure Key where
  matches_event : Event → Bool
  matches_channel : Channel → Bool
  merge : Event → Event
  matches_cap : Capability → CapMatch
  merge_cap : Capability → Capability
  pop_value : Option Range

/-- Model of the loopback timer-service handle: `schedule_wakeup_in`
returns a fresh token and records the request.  Fresh tokens are distinct,
matching the uniqueness the code relies on. -/
structure Loopback where
  next_token : Nat
  scheduled : List (Token × Duration)
deriving DecidableEq, Repr

/-- `LoopbackHandle::schedule_wakeup_in(duration) → Token`. -/
def Loopback.schedule_wakeup_in (lb : Loopback) (d : Duration) : Token × Loopback :=
  (lb.next_token, ⟨lb.next_token + 1, lb.scheduled ++ [(lb.next_token, d)]⟩)

/-- `ExpirationTime`: the point after which a pressed tracker is no longer
valid; `Never` when no period= clause was specified. -/
inductive ExpirationTime where
  | Never
  | Until (token : Token)
deriving DecidableEq, Repr

/-- `TrackerState`: Active (with expiration), Inactive, or Invalid. -/
inductive TrackerState where
  | Active (expiration : ExpirationTime)
  | Inactive
  | Invalid
deriving DecidableEq, Repr

/-- `TrackerState::is_active`. -/
def TrackerState.is_active : TrackerState → Bool
  | .Active _ => true
  | .Inactive | .Invalid => false

/-- `Tracker`: tracks whether a certain key is held down. -/
structure Tracker where
  key : Key
  range : Range
  state : TrackerState

/-- `Tracker::new`: pop the key's value range (defaulting to
`Range::new(Some(1), None)`), start Inactive. -/
def Tracker.new (key : Key) : Tracker :=
  { key := { key with pop_value := none }
    range := key.pop_value.getD (Range.new (some 1) none)
    state := TrackerState.Inactive }

/-- `Tracker::matches`. -/
def Tracker.matches_event (t : Tracker) (event : Event) : Bool :=
  t.key.matches_event event

/-- `Tracker::matches_channel`. -/
def Tracker.matches_channel (t : Tracker) (channel : Channel) : Bool :=
  t.key.matches_channel channel

/-- `Tracker::activates_by`. -/
def Tracker.activates_by (t : Tracker) (event : Event) : Bool :=
  t.range.contains event.value

/-- `Tracker::is_active`. -/
def Tracker.is_active (t : Tracker) : Bool :=
  t.state.is_active

/-- `Tracker::clone_empty`: copy key and range, reset state to Inactive. -/
def Tracker.clone_empty (t : Tracker) : Tracker :=
  { key := t.key, range := t.range, state := TrackerState.Inactive }

/-- `TriggerResponse`: what effect an event had on the hook. -/
inductive TriggerResponse where
  | None
  | Matches
  | Activates
  | Releases
deriving DecidableEq, Repr

/-- `TriggerState`: whether all trackers are currently pressed. -/
inductive TriggerState where
  | Active
  | Inactive
deriving DecidableEq, Repr

/-- `Trigger`: ordered trackers plus optional period and sequential flag. -/
structure Trigger where
  period : Option Duration
  sequential : Bool
  trackers : List Tracker
  state : TriggerState

/-- `Trigger::new`. -/
def Trigger.new (keys : List Key) (period : Option Duration) (sequential : Bool) : Trigger :=
  { period := period
    sequential := sequential
    trackers := keys.map Tracker.new
    state := TriggerState.Inactive }

/-- `acquire_expiration_token`: with a period, schedule a wakeup and store
the token; otherwise `Never`. -/
def acquire_expiration_token (period : Option Duration) (lb : Loopback) :
    ExpirationTime × Loopback :=
  match period with
  | some duration =>
    let (token, lb') := lb.schedule_wakeup_in duration
    (ExpirationTime.Until token, lb')
  | none => (ExpirationTime.Never, lb)

/-- One iteration of the per-tracker loop at the top of `Trigger::apply`
(only invoked on trackers whose key matches the event). -/
def Tracker.applyMatched (period : Option Duration) (event : Event)
    (t : Tracker) (lb : Loopback) : Tracker × Loopback :=
  if t.activates_by event then
    match t.state with
    | TrackerState.Inactive =>
      let (exp, lb') := acquire_expiration_token period lb
      ({ t with state := TrackerState.Active exp }, lb')
    | TrackerState.Active _ | TrackerState.Invalid => (t, lb)
  else
    ({ t with state := TrackerState.Inactive }, lb)

/-- The per-tracker loop of `Trigger::apply` over the whole tracker list:
returns the updated trackers, the loopback state, and `any_tracker_matched`. -/
def Trigger.processEvent (period : Option Duration) (event : Event) :
    List Tracker → Loopback → List Tracker × Loopback × Bool
  | [], lb => ([], lb, false)
  | t :: rest, lb =>
    if t.matches_event event then
      let (t', lb') := t.applyMatched period event lb
      let (rest', lb'', anyRest) := Trigger.processEvent period event rest lb'
      (t' :: rest', lb'', true || anyRest)
    else
      let (rest', lb', anyRest) := Trigger.processEvent period event rest lb
      (t :: rest', lb', anyRest)

/-- Force a tracker Invalid if it is active, else leave it unchanged
(the body of the sequential-invalidations `filter`/`for_each`). -/
def Tracker.invalidateIfActive (t : Tracker) : Tracker :=
  if t.is_active then { t with state := TrackerState.Invalid } else t

/-- The sequential-invalidations pass of `Trigger::apply`: skip the longest
run of trackers that are consecutively active from the start, then
invalidate every active tracker after it. -/
def Trigger.seqInvalidate : List Tracker → List Tracker
  | [] => []
  | t :: rest =>
    if t.is_active then t :: Trigger.seqInvalidate rest
    else t :: rest.map Tracker.invalidateIfActive

/-- Reset a tracker to `Active(Never)` (performed on every tracker when the
trigger transitions to Active). -/
def Tracker.setActiveNever (t : Tracker) : Tracker :=
  { t with state := TrackerState.Active ExpirationTime.Never }

/-- `Trigger::apply`: update trackers from the event, return None when no
tracker matched, run the sequential pass, then transition the trigger's
own state. -/
def Trigger.apply (tr : Trigger) (event : Event) (lb : Loopback) :
    Trigger × Loopback × TriggerResponse :=
  let (trackers1, lb1, any_tracker_matched) :=
    Trigger.processEvent tr.period event tr.trackers lb
  if ! any_tracker_matched then
    ({ tr with trackers := trackers1 }, lb1, TriggerResponse.None)
  else
    let trackers2 :=
      if tr.sequential then Trigger.seqInvalidate trackers1 else trackers1
    let all_trackers_active := trackers2.all (fun t => t.state.is_active)
    match tr.state, all_trackers_active with
    | TriggerState.Inactive, true =>
      ({ tr with trackers := trackers2.map Tracker.setActiveNever
                 state := TriggerState.Active },
       lb1, TriggerResponse.Activates)
    | TriggerState.Active, false =>
      ({ tr with trackers := trackers2, state := TriggerState.Inactive },
       lb1, TriggerResponse.Releases)
    | TriggerState.Active, true =>
      ({ tr with trackers := trackers2 }, lb1, TriggerResponse.Matches)
    | TriggerState.Inactive, false =>
      ({ tr with trackers := trackers2 }, lb1, TriggerResponse.Matches)

/-- The per-tracker body of `Trigger::wakeup`: expire a tracker whose
stored token equals the delivered one. -/
def Tracker.wakeupOne (token : Token) (t : Tracker) : Tracker × Bool :=
  match t.state with
  | TrackerState.Active (ExpirationTime.Until other) =>
    if token = other then ({ t with state := TrackerState.Invalid }, true)
    else (t, false)
  | _ => (t, false)

/-- The loop of `Trigger::wakeup` over the tracker list. -/
def Trigger.wakeupList (token : Token) : List Tracker → List Tracker × Bool
  | [] => ([], false)
  | t :: rest =>
    let (t', b) := Tracker.wakeupOne token t
    let (rest', b') := Trigger.wakeupList token rest
    (t' :: rest', b || b')

/-- `Trigger::wakeup`: invalidate every tracker in state
`Active(Until(token))`; report whether any tracker expired. -/
def Trigger.wakeup (tr : Trigger) (token : Token) : Trigger × Bool :=
  let (trackers', result) := Trigger.wakeupList token tr.trackers
  ({ tr with trackers := trackers' }, result)

/-- `Trigger::has_active_tracker_matching_channel`. -/
def Trigger.has_active_tracker_matching_channel (tr : Trigger) (channel : Channel) : Bool :=
  tr.trackers.any (fun t => t.is_active && t.matches_channel channel)

/-- `Trigger::has_tracker_matching_channel`. -/
def Trigger.has_tracker_matching_channel (tr : Trigger) (channel : Channel) : Bool :=
  tr.trackers.any (fun t => t.matches_channel channel)

/-- `Trigger::clone_empty`: duplicate period, sequential flag and each
tracker's static configuration; reset all runtime state. -/
def Trigger.clone_empty (tr : Trigger) : Trigger :=
  { sequential := tr.sequential
    period := tr.period
    trackers := tr.trackers.map Tracker.clone_empty
    state := TriggerState.Inactive }

/-- `EventDispatcher`: send-keys plus the last activating event. -/
structure EventDispatcher where
  send_keys : List Key
  activating_event : Option Event

/-- `EventDispatcher::from_send_keys`. -/
def EventDispatcher.from_send_keys (send_keys : List Key) : EventDispatcher :=
  { send_keys := send_keys, activating_event := none }

/-- A log of warning messages already emitted, for deduplication. -/
abbrev WarnLog := List String

/-- Modelled from the spec: `crate::utils::warn_once` is not among the
provided sources; per the spec it logs a deduplicated warning, i.e. the
message is emitted only the first time it is seen.  Returns the updated
log and whether the message was actually emitted. -/
def warn_once (msg : String) (log : WarnLog) : WarnLog × Bool :=
  if msg ∈ log then (log, false) else (msg :: log, true)

/-- The warning emitted when a hook releases without a recorded
activating event. -/
def releaseWithoutActivationWarning : String :=
  "Internal error: a hook released without record of being activated by any event. This is a bug."

/-- Synthesize a press event for one send-key from the activating event's
context: merge, force value to 1, clear the Withholdable flag. -/
def synthesizePress (event : Event) (key : Key) : Event :=
  let e := key.merge event
  { e with value := 1, flags := e.flags.unsetWithholdable }

/-- Synthesize a release event for one send-key from the activating
event's context: merge, force value to 0, clear the Withholdable flag. -/
def synthesizeRelease (event : Event) (key : Key) : Event :=
  let e := key.merge event
  { e with value := 0, flags := e.flags.unsetWithholdable }

/-- `EventDispatcher::map_event`: on Activates, pass the event through,
record it and append one synthesized press per send-key in order; on
Releases, append one synthesized release per send-key in reverse order
(from the recorded activating event, falling back to the current event
with a deduplicated warning) and then the event; otherwise pass the event
through unchanged. -/
def EventDispatcher.map_event (d : EventDispatcher) (event : Event)
    (trigger_response : TriggerResponse) (events_out : List Event)
    (log : WarnLog) : EventDispatcher × List Event × WarnLog :=
  match trigger_response with
  | TriggerResponse.Activates =>
    let events_out1 := events_out ++ [event]
    let d' := { d with activating_event := some event }
    (d', events_out1 ++ d.send_keys.map (synthesizePress event), log)
  | TriggerResponse.Releases =>
    let (activating_event, log') :=
      match d.activating_event with
      | some a => (a, log)
      | none => (event, (warn_once releaseWithoutActivationWarning log).1)
    (d,
     events_out ++ d.send_keys.reverse.map (synthesizeRelease activating_event)
       ++ [event],
     log')
  | TriggerResponse.Matches | TriggerResponse.None =>
    (d, events_out ++ [event], log)

/-- Insertion into the model of `HashSet<Capability>`: a list without
duplicates, kept in first-insertion order. -/
def hashSetInsert (s : List Capability) (c : Capability) : List Capability :=
  if c ∈ s then s else s ++ [c]

/-- `HashSet::extend` over the model set. -/
def hashSetExtend (s : List Capability) (cs : List Capability) : List Capability :=
  cs.foldl hashSetInsert s

/-- The synthesized capability for one send-key and one input capability:
merge the send-key onto it and force the value range to [0, 1]. -/
def synthesizeCap (cap_in : Capability) (key : Key) : Capability :=
  { key.merge_cap cap_in with value_range := Range.new (some 0) (some 1) }

/-- The body of the per-capability loop of `generate_additional_caps`. -/
def additionalCapsStep (tracker_keys : List Key) (send_keys : List Key)
    (acc : List Capability) (cap_in : Capability) : List Capability :=
  match CapMatch.listMax (tracker_keys.map (fun key => key.matches_cap cap_in)) with
  | some CapMatch.Yes | some CapMatch.Maybe =>
    hashSetExtend acc (send_keys.map (synthesizeCap cap_in))
  | some CapMatch.No | none => acc

/-- `EventDispatcher::generate_additional_caps`: for each input capability
whose best match over the trigger's tracker keys is Yes or Maybe, insert
one synthesized capability per send-key into a set; append the set's
contents to `caps_out`.  Base capabilities are never copied through. -/
def EventDispatcher.generate_additional_caps (d : EventDispatcher)
    (trigger : Trigger) (caps : List Capability)
    (caps_out : List Capability) : List Capability :=
  let keys := trigger.trackers.map (fun t => t.key)
  let additional_caps := caps.foldl (additionalCapsStep keys d.send_keys) []
  caps_out ++ additional_caps

/-- Modelled from the spec: `EventDispatcher::clone_empty` is not in the
provided source file; per the spec, clone_empty preserves the send-keys
and yields no recorded activating event. -/
def EventDispatcher.clone_empty (d : EventDispatcher) : EventDispatcher :=
  { send_keys := d.send_keys, activating_event := none }

/-- `Hook`: trigger, dispatcher, effect lists and the withholding flag.
The shared engine `State` that effects mutate is opaque to this core, so
it is a type parameter and each effect is a state transformer. -/
structure Hook (σ : Type) where
  effects : List (σ → σ)
  release_effects : List (σ → σ)
  mark_withholdable : Bool
  trigger : Trigger
  event_dispatcher : EventDispatcher

/-- `Hook::new`. -/
def Hook.new {σ : Type} (trigger : Trigger) (event_dispatcher : EventDispatcher)
    (mark_withholdable : Bool) : Hook σ :=
  { trigger := trigger
    mark_withholdable := mark_withholdable
    effects := []
    release_effects := []
    event_dispatcher := event_dispatcher }

/-- `Hook::apply_effects`: run the on-activate effects in order over the
shared state. -/
def Hook.apply_effects {σ : Type} (h : Hook σ) (s : σ) : σ :=
  h.effects.foldl (fun st f => f st) s

/-- `Hook::apply_release_effects`. -/
def Hook.apply_release_effects {σ : Type} (h : Hook σ) (s : σ) : σ :=
  h.release_effects.foldl (fun st f => f st) s

/-- The withholding-mark step of `Hook::apply`: set the Withholdable flag
when configured and the response is not None. -/
def Hook.markEvent {σ : Type} (h : Hook σ) (event : Event)
    (response : TriggerResponse) : Event :=
  if h.mark_withholdable then
    match response with
    | TriggerResponse.Matches | TriggerResponse.Activates
    | TriggerResponse.Releases =>
      { event with flags := event.flags.setWithholdable }
    | TriggerResponse.None => event
  else event

/-- `Hook::apply`: run the trigger, mark the event Withholdable when
configured and the response is not None, dispatch events, then run the
matching effect list. -/
def Hook.apply {σ : Type} (h : Hook σ) (event : Event)
    (events_out : List Event) (s : σ) (lb : Loopback) (log : WarnLog) :
    Hook σ × List Event × σ × Loopback × WarnLog :=
  let (trigger', lb', response) := h.trigger.apply event lb
  let event' := h.markEvent event response
  let (ed', events_out', log') :=
    h.event_dispatcher.map_event event' response events_out log
  let s' :=
    match response with
    | TriggerResponse.Activates => h.apply_effects s
    | TriggerResponse.Releases => h.apply_release_effects s
    | TriggerResponse.Matches | TriggerResponse.None => s
  ({ h with trigger := trigger', event_dispatcher := ed' },
   events_out', s', lb', log')

/-- `Hook::apply_to_all`: apply to each event of the batch in order. -/
def Hook.apply_to_all {σ : Type} (h : Hook σ) (events : List Event)
    (events_out : List Event) (s : σ) (lb : Loopback) (log : WarnLog) :
    Hook σ × List Event × σ × Loopback × WarnLog :=
  match events with
  | [] => (h, events_out, s, lb, log)
  | e :: rest =>
    let (h', out', s', lb', log') := h.apply e events_out s lb log
    Hook.apply_to_all h' rest out' s' lb' log'

/-- `Hook::apply_to_all_caps`: copy the base capabilities through, then
append the additional ones. -/
def Hook.apply_to_all_caps {σ : Type} (h : Hook σ) (caps : List Capability)
    (caps_out : List Capability) : List Capability :=
  h.event_dispatcher.generate_additional_caps h.trigger caps (caps_out ++ caps)

/-- `Hook::wakeup`: forward to the trigger, dropping the return value. -/
def Hook.wakeup {σ : Type} (h : Hook σ) (token : Token) : Hook σ :=
  { h with trigger := (h.trigger.wakeup token).1 }

/-- `Hook::add_effect`. -/
def Hook.add_effect {σ : Type} (h : Hook σ) (effect : σ → σ) : Hook σ :=
  { h with effects := h.effects ++ [effect] }

/-- Modelled from the spec: `Hook::clone_empty` is not in the provided
source file; per the spec, it preserves all static configuration (effect
lists, withholding flag, and the contained trigger's and dispatcher's
configuration) and resets all runtime state via the contained
`clone_empty` operations. -/
def Hook.clone_empty {σ : Type} (h : Hook σ) : Hook σ :=
  { effects := h.effects
    release_effects := h.release_effects
    mark_withholdable := h.mark_withholdable
    trigger := h.trigger.clone_empty
    event_dispatcher := h.event_dispatcher.clone_empty }

/-- The tracker list and loopback state of `Trigger::apply` after the
per-tracker update and the sequential pass, together with
`any_tracker_matched`; the trigger's own state transition is decided from
this data. -/
def Trigger.postProcess (t : Trigger) (event : Event) (lb : Loopback) :
    List Tracker × Loopback × Bool :=
  let (trackers1, lb1, any_tracker_matched) :=
    Trigger.processEvent t.period event t.trackers lb
  (if t.sequential then Trigger.seqInvalidate trackers1 else trackers1,
   lb1, any_tracker_matched)

/-- The triggers reachable through the public interface: construction via
`Trigger::new`, plus any sequence of `clone_empty`, `apply` and `wakeup`. -/
inductive Trigger.Reachable : Trigger → Prop where
  | of_new (keys : List Key) (period : Option Duration) (sequential : Bool) :
      Trigger.Reachable (Trigger.new keys period sequential)
  | of_clone_empty {t : Trigger} :
      Trigger.Reachable t → Trigger.Reachable t.clone_empty
  | of_apply {t : Trigger} (event : Event) (lb : Loopback) :
      Trigger.Reachable t → Trigger.Reachable (t.apply event lb).1
  | of_wakeup {t : Trigger} (token : Token) :
      Trigger.Reachable t → Trigger.Reachable (t.wakeup token).1

/-- The documented trigger invariant: state Active implies every tracker
is active, and state Inactive implies not every tracker is active. -/
def Trigger.invariantHolds (t : Trigger) : Prop :=
  (t.state = TriggerState.Active → t.trackers.all Tracker.is_active = true) ∧
  (t.state = TriggerState.Inactive → t.trackers.all Tracker.is_active ≠ true)

/-- Strengthened invariant used to establish `Trigger.invariantHolds` over
reachable triggers: while the trigger is Active every tracker sits in
`Active(Never)`, and while it is Inactive (and there is any tracker at
all) some tracker is not active. -/
def Trigger.strongInv (t : Trigger) : Prop :=
  (t.state = TriggerState.Active →
     ∀ tr ∈ t.trackers, tr.state = TrackerState.Active ExpirationTime.Never) ∧
  (t.state = TriggerState.Inactive → t.trackers ≠ [] →
     t.trackers.all Tracker.is_active = false)

/-- No tracker of the trigger stores an expiry token. -/
def Trigger.noTokens (t : Trigger) : Prop :=
  ∀ tr ∈ t.trackers, ∀ token : Token,
    tr.state ≠ TrackerState.Active (ExpirationTime.Until token)

/-- Whether an input capability's best match over the tracker keys is Yes
or Maybe (the condition under which `generate_additional_caps` emits
send-key capabilities for it). -/
def capQualifies (tracker_keys : List Key) (cap_in : Capability) : Bool :=
  match CapMatch.listMax (tracker_keys.map (fun key => key.matches_cap cap_in)) with
  | some CapMatch.Yes | some CapMatch.Maybe => true
  | some CapMatch.No | none => false

/-- Deduplication of a capability list in first-occurrence order (the
observable content of collecting into a `HashSet` in the model). -/
def listDedup (l : List Capability) : List Capability :=
  hashSetExtend [] l

/-- A concrete key matching events and capabilities with the given code;
used to instantiate the theorems at concrete inputs. -/
def testKey (c : Nat) : Key :=
  { matches_event := fun e => e.code == c
    matches_channel := fun _ => true
    merge := fun e => { e with code := c }
    matches_cap := fun cap => if cap.code == c then CapMatch.Yes else CapMatch.No
    merge_cap := fun cap => { cap with code := c }
    pop_value := none }

/-- A concrete event with the given code and value. -/
def testEvent (c : Nat) (v : Int) : Event :=
  { channel := 0, code := c, value := v, flags := ⟨false⟩ }

/-- A fresh loopback handle. -/
def lb0 : Loopback := ⟨0, []⟩

/-- The list of additional capabilities contributed by
`generate_additional_caps`: the synthesized send-key capabilities of every
qualifying input capability, deduplicated in first-occurrence order. -/
def additionalCapsList (d : EventDispatcher) (trigger : Trigger)
    (caps : List Capability) : List Capability :=
  listDedup ((caps.filter
      (capQualifies (trigger.trackers.map (fun t => t.key)))).flatMap
    (fun c => d.send_keys.map (synthesizeCap c)))

/-! ## Lemmas about the tracker-processing stages -/

lemma trigger_apply_unfold (t : Trigger) (e : Event) (lb : Loopback) :
    t.apply e lb =
      (let pr := Trigger.processEvent t.period e t.trackers lb
       if ! pr.2.2 then
         ({ t with trackers := pr.1 }, pr.2.1, TriggerResponse.None)
       else
         let trackers2 :=
           if t.sequential then Trigger.seqInvalidate pr.1 else pr.1
         match t.state, trackers2.all (fun tr => tr.state.is_active) with
         | TriggerState.Inactive, true =>
           ({ t with trackers := trackers2.map Tracker.setActiveNever
                     state := TriggerState.Active },
            pr.2.1, TriggerResponse.Activates)
         | TriggerState.Active, false =>
           ({ t with trackers := trackers2, state := TriggerState.Inactive },
            pr.2.1, TriggerResponse.Releases)
         | TriggerState.Active, true =>
           ({ t with trackers := trackers2 }, pr.2.1, TriggerResponse.Matches)
         | TriggerState.Inactive, false =>
           ({ t with trackers := trackers2 }, pr.2.1, TriggerResponse.Matches)) :=
  rfl

lemma processEvent_no_match (p : Option Duration) (e : Event) :
    ∀ (ts : List Tracker) (lb : Loopback),
      (Trigger.processEvent p e ts lb).2.2 = false →
      Trigger.processEvent p e ts lb = (ts, lb, false) := by
  intro ts
  induction ts with
  | nil => intro lb _; rfl
  | cons t rest ih =>
    intro lb h
    by_cases hm : t.matches_event e
    · simp [Trigger.processEvent, hm] at h
    · simp only [Trigger.processEvent, hm, Bool.false_eq_true, if_false] at h ⊢
      rw [ih lb h]

lemma seqInvalidate_eq (ts : List Tracker) :
    Trigger.seqInvalidate ts =
      ts.takeWhile Tracker.is_active ++
        (ts.dropWhile Tracker.is_active).map Tracker.invalidateIfActive := by
  induction ts with
  | nil => rfl
  | cons t rest ih =>
    by_cases ha : t.is_active
    · simp [Trigger.seqInvalidate, List.takeWhile_cons, List.dropWhile_cons, ha, ih]
    · simp [Trigger.seqInvalidate, List.takeWhile_cons, List.dropWhile_cons, ha,
            Tracker.invalidateIfActive]

lemma seqInvalidate_mem (ts : List Tracker) :
    ∀ tr ∈ Trigger.seqInvalidate ts, tr ∈ ts ∨ tr.state = TrackerState.Invalid := by
  induction ts with
  | nil => intro tr h; exact absurd h (List.not_mem_nil tr)
  | cons t rest ih =>
    intro tr h
    by_cases ha : t.is_active
    · simp only [Trigger.seqInvalidate, ha, if_true, List.mem_cons] at h
      rcases h with h | h
      · exact Or.inl (h ▸ List.mem_cons_self t rest)
      · rcases ih tr h with h2 | h2
        · exact Or.inl (List.mem_cons_of_mem t h2)
        · exact Or.inr h2
    · simp only [Trigger.seqInvalidate, ha, Bool.false_eq_true, if_false,
                 List.mem_cons, List.mem_map] at h
      rcases h with h | ⟨tr0, _, rfl⟩
      · exact Or.inl (h ▸ List.mem_cons_self t rest)
      · unfold Tracker.invalidateIfActive
        by_cases h0 : tr0.is_active
        · simp [h0]
        · simp only [h0, Bool.false_eq_true, if_false]
          exact Or.inl (List.mem_cons_of_mem t (by assumption))

lemma wakeupList_fst (token : Token) (ts : List Tracker) :
    (Trigger.wakeupList token ts).1 =
      ts.map (fun tr => (Tracker.wakeupOne token tr).1) := by
  induction ts with
  | nil => rfl
  | cons t rest ih => simp [Trigger.wakeupList, ih]

lemma wakeupOne_active_imp (token : Token) (tr : Tracker) :
    ((Tracker.wakeupOne token tr).1).is_active = true → tr.is_active = true := by
  unfold Tracker.wakeupOne
  rcases hs : tr.state with e | _ | _
  · rcases e with _ | k
    · simp [Tracker.is_active, hs, TrackerState.is_active]
    · by_cases hk : token = k <;>
        simp [hk, Tracker.is_active, hs, TrackerState.is_active]
  · simp
  · simp

lemma wakeupList_noTokens (token : Token) (ts : List Tracker)
    (h : ∀ tr ∈ ts, ∀ k : Token,
        tr.state ≠ TrackerState.Active (ExpirationTime.Until k)) :
    Trigger.wakeupList token ts = (ts, false) := by
  induction ts with
  | nil => rfl
  | cons t rest ih =>
    have ht : Tracker.wakeupOne token t = (t, false) := by
      unfold Tracker.wakeupOne
      rcases hs : t.state with e | _ | _
      · rcases e with _ | k
        · rfl
        · exact absurd hs (h t (List.mem_cons_self t rest) k)
      · rfl
      · rfl
    have hrest := ih (fun tr htr k => h tr (List.mem_cons_of_mem t htr) k)
    simp [Trigger.wakeupList, ht, hrest]

lemma applyMatched_state_cases (p : Option Duration) (e : Event)
    (tr : Tracker) (lb : Loopback) :
    (Tracker.applyMatched p e tr lb).1 = tr ∨
    ((Tracker.applyMatched p e tr lb).1).state = TrackerState.Inactive ∨
    (tr.state = TrackerState.Inactive ∧
      ∃ exp, (Tracker.applyMatched p e tr lb).1 =
        { tr with state := TrackerState.Active exp }) := by
  unfold Tracker.applyMatched
  by_cases hab : tr.activates_by e
  · rcases hs : tr.state with e0 | _ | _
    · simp [hab, hs]
    · refine Or.inr (Or.inr ⟨rfl, (acquire_expiration_token p lb).1, ?_⟩)
      simp [hab, hs]
    · simp [hab, hs]
  · simp [hab]

lemma applyMatched_none_no_token (e : Event) (tr : Tracker) (lb : Loopback)
    (h : ∀ k : Token, tr.state ≠ TrackerState.Active (ExpirationTime.Until k)) :
    ∀ k : Token,
      ((Tracker.applyMatched none e tr lb).1).state ≠
        TrackerState.Active (ExpirationTime.Until k) := by
  intro k
  unfold Tracker.applyMatched
  by_cases hab : tr.activates_by e
  · rcases hs : tr.state with e0 | _ | _
    · simpa [hab, hs] using h k
    · simp [hab, hs, acquire_expiration_token]
    · simp [hab, hs]
  · simp [hab]

lemma processEvent_mem (p : Option Duration) (e : Event) :
    ∀ (ts : List Tracker) (lb : Loopback),
      ∀ tr' ∈ (Trigger.processEvent p e ts lb).1,
        ∃ tr ∈ ts, tr' = tr ∨ ∃ lb2, tr' = (Tracker.applyMatched p e tr lb2).1 := by
  intro ts
  induction ts with
  | nil => intro lb tr' h; exact absurd h (List.not_mem_nil tr')
  | cons t rest ih =>
    intro lb tr' h
    by_cases hm : t.matches_event e
    · simp only [Trigger.processEvent, hm, if_true, List.mem_cons] at h
      rcases h with h | h
      · exact ⟨t, List.mem_cons_self t rest, Or.inr ⟨lb, h⟩⟩
      · obtain ⟨tr, htr, hc⟩ := ih _ tr' h
        exact ⟨tr, List.mem_cons_of_mem t htr, hc⟩
    · simp only [Trigger.processEvent, hm, Bool.false_eq_true, if_false,
                 List.mem_cons] at h
      rcases h with h | h
      · exact ⟨t, List.mem_cons_self t rest, Or.inl h⟩
      · obtain ⟨tr, htr, hc⟩ := ih _ tr' h
        exact ⟨tr, List.mem_cons_of_mem t htr, hc⟩

lemma processEvent_all_never (p : Option Duration) (e : Event)
    (ts : List Tracker) (lb : Loopback)
    (h : ∀ tr ∈ ts, tr.state = TrackerState.Active ExpirationTime.Never) :
    ∀ tr' ∈ (Trigger.processEvent p e ts lb).1,
      tr'.state = TrackerState.Active ExpirationTime.Never ∨
      tr'.state = TrackerState.Inactive := by
  intro tr' h'
  obtain ⟨tr, htr, hc⟩ := processEvent_mem p e ts lb tr' h'
  rcases hc with he | ⟨lb2, he⟩
  · rw [he]; exact Or.inl (h tr htr)
  · rcases applyMatched_state_cases p e tr lb2 with h1 | h1 | ⟨h1, _⟩
    · rw [he, h1]; exact Or.inl (h tr htr)
    · rw [he]; exact Or.inr h1
    · rw [h tr htr] at h1; exact absurd h1 (by simp)

lemma processEvent_no_tokens (e : Event) (ts : List Tracker) (lb : Loopback)
    (h : ∀ tr ∈ ts, ∀ k : Token,
        tr.state ≠ TrackerState.Active (ExpirationTime.Until k)) :
    ∀ tr' ∈ (Trigger.processEvent none e ts lb).1, ∀ k : Token,
      tr'.state ≠ TrackerState.Active (ExpirationTime.Until k) := by
  intro tr' h'
  obtain ⟨tr, htr, hc⟩ := processEvent_mem none e ts lb tr' h'
  rcases hc with he | ⟨lb2, he⟩
  · rw [he]; exact h tr htr
  · rw [he]; exact applyMatched_none_no_token e tr lb2 (h tr htr)

lemma trigger_apply_no_match_eq (t : Trigger) (e : Event) (lb : Loopback)
    (h : (Trigger.processEvent t.period e t.trackers lb).2.2 = false) :
    t.apply e lb = (t, lb, TriggerResponse.None) := by
  have hnm := processEvent_no_match t.period e t.trackers lb h
  rw [trigger_apply_unfold]
  simp only [hnm]
  rfl

lemma trigger_apply_matched_eq (t : Trigger) (e : Event) (lb : Loopback)
    (ts1 : List Tracker) (lb1 : Loopback)
    (hpr : Trigger.processEvent t.period e t.trackers lb = (ts1, lb1, true)) :
    t.apply e lb =
      (match t.state,
          (if t.sequential then Trigger.seqInvalidate ts1 else ts1).all
            (fun tr => tr.state.is_active) with
       | TriggerState.Inactive, true =>
         ({ t with
              trackers :=
                (if t.sequential then Trigger.seqInvalidate ts1 else ts1).map
                  Tracker.setActiveNever
              state := TriggerState.Active },
          lb1, TriggerResponse.Activates)
       | TriggerState.Active, false =>
         ({ t with
              trackers := if t.sequential then Trigger.seqInvalidate ts1 else ts1
              state := TriggerState.Inactive },
          lb1, TriggerResponse.Releases)
       | TriggerState.Active, true =>
         ({ t with
              trackers := if t.sequential then Trigger.seqInvalidate ts1 else ts1 },
          lb1, TriggerResponse.Matches)
       | TriggerState.Inactive, false =>
         ({ t with
              trackers := if t.sequential then Trigger.seqInvalidate ts1 else ts1 },
          lb1, TriggerResponse.Matches)) := by
  rw [trigger_apply_unfold]
  simp only [hpr]
  rfl

lemma all_is_active_false_of (ts : List Tracker) (h : ts ≠ [])
    (h2 : ∀ tr ∈ ts, tr.is_active = false) :
    ts.all Tracker.is_active = false := by
  rcases ts with _ | ⟨a, rest⟩
  · exact absurd rfl h
  · simp [List.all_cons, h2 a (List.mem_cons_self a rest)]

lemma all_is_active_eq_false (ts : List Tracker) :
    ts.all Tracker.is_active = false ↔
      ∃ tr ∈ ts, Tracker.is_active tr = false := by
  rw [← Bool.not_eq_true, List.all_eq_true]
  simp

lemma strongInv_new (keys : List Key) (period : Option Duration)
    (sequential : Bool) :
    Trigger.strongInv (Trigger.new keys period sequential) := by
  constructor
  · intro h
    simp [Trigger.new] at h
  · intro _ hne
    refine all_is_active_false_of _ hne ?_
    intro tr htr
    simp only [Trigger.new, List.mem_map] at htr
    obtain ⟨k, _, hk⟩ := htr
    rw [← hk]
    rfl
  
lemma strongInv_clone_empty (t : Trigger) :
    Trigger.strongInv t.clone_empty := by
  constructor
  · intro h
    simp [Trigger.clone_empty] at h
  · intro _ hne
    refine all_is_active_false_of _ hne ?_
    intro tr htr
    simp only [Trigger.clone_empty, List.mem_map] at htr
    obtain ⟨t0, _, hk⟩ := htr
    rw [← hk]
    rfl

lemma strongInv_apply (t : Trigger) (e : Event) (lb : Loopback)
    (h : Trigger.strongInv t) : Trigger.strongInv (t.apply e lb).1 := by
  rcases hpr : Trigger.processEvent t.period e t.trackers lb with ⟨ts1, lb1, m⟩
  cases m
  · rw [trigger_apply_no_match_eq t e lb (by rw [hpr])]
    exact h
  · rw [trigger_apply_matched_eq t e lb ts1 lb1 hpr]
    set ts2 := if t.sequential then Trigger.seqInvalidate ts1 else ts1 with hts2
    have hmem2 : ∀ tr' ∈ ts2, tr' ∈ ts1 ∨ tr'.state = TrackerState.Invalid := by
      intro tr' h'
      by_cases hseq : t.sequential
      · rw [hts2, if_pos hseq] at h'
        exact seqInvalidate_mem ts1 tr' h'
      · rw [hts2, if_neg hseq] at h'
        exact Or.inl h'
    rcases hst : t.state with _ | _
    · -- t.state = Active
      have hts1never : ∀ tr' ∈ ts1,
          tr'.state = TrackerState.Active ExpirationTime.Never ∨
          tr'.state = TrackerState.Inactive := by
        have h0 := processEvent_all_never t.period e t.trackers lb (h.1 hst)
        rw [hpr] at h0
        exact h0
      rcases hall : ts2.all (fun tr => tr.state.is_active) with _ | _
      · -- Releases
        constructor
        · intro hc
          simp at hc
        · intro _ _
          exact hall
      · -- Matches, staying Active
        constructor
        · intro _
          intro tr' htr'
          have hact : tr'.state.is_active = true := by
            exact (List.all_eq_true.mp hall) tr' htr'
          rcases hmem2 tr' htr' with h1 | h1
          · rcases hts1never tr' h1 with h2 | h2
            · exact h2
            · rw [h2] at hact
              simp [TrackerState.is_active] at hact
          · rw [h1] at hact
            simp [TrackerState.is_active] at hact
        · intro hc
          simp at hc
    · -- t.state = Inactive
      rcases hall : ts2.all (fun tr => tr.state.is_active) with _ | _
      · -- Matches, staying Inactive
        constructor
        · intro hc
          simp at hc
        · intro _ _
          exact hall
      · -- Activates
        constructor
        · intro _
          intro tr' htr'
          simp only [List.mem_map] at htr'
          obtain ⟨tr0, _, hk⟩ := htr'
          rw [← hk]
          rfl
        · intro hc
          simp at hc

lemma strongInv_wakeup (t : Trigger) (token : Token)
    (h : Trigger.strongInv t) : Trigger.strongInv (t.wakeup token).1 := by
  rcases hst : t.state with _ | _
  · -- Active: every tracker is Active(Never), wakeup is the identity
    have hall := h.1 hst
    have hid := wakeupList_noTokens token t.trackers
      (fun tr htr k => by rw [hall tr htr]; simp)
    have heq : (t.wakeup token).1 = t := by
      unfold Trigger.wakeup
      rw [hid]
    rw [heq]
    exact h
  · -- Inactive
    have hwk : (t.wakeup token).1.trackers =
        (Trigger.wakeupList token t.trackers).1 := rfl
    have hfst : (t.wakeup token).1.trackers =
        t.trackers.map (fun tr => (Tracker.wakeupOne token tr).1) := by
      rw [hwk, wakeupList_fst]
    have hstate : (t.wakeup token).1.state = t.state := rfl
    constructor
    · intro hc
      rw [hstate, hst] at hc
      simp at hc
    · intro _ hne
      have hne0 : t.trackers ≠ [] := by
        intro h0
        rw [hfst, h0] at hne
        exact hne rfl
      have hallf := h.2 hst hne0
      obtain ⟨tr, htr, hfa⟩ := (all_is_active_eq_false t.trackers).mp hallf
      rw [hfst]
      refine (all_is_active_eq_false _).mpr ?_
      refine ⟨(Tracker.wakeupOne token tr).1, List.mem_map_of_mem _ htr, ?_⟩
      rcases hb : ((Tracker.wakeupOne token tr).1).is_active with _ | _
      · rfl
      · rw [wakeupOne_active_imp token tr hb] at hfa
        exact absurd hfa (by simp)

lemma strongInv_reachable {t : Trigger} (h : Trigger.Reachable t) :
    Trigger.strongInv t := by
  induction h with
  | of_new keys period sequential => exact strongInv_new keys period sequential
  | of_clone_empty _ => exact strongInv_clone_empty _
  | of_apply e lb _ ih => exact strongInv_apply _ e lb ih
  | of_wakeup token _ ih => exact strongInv_wakeup _ token ih

lemma trigger_apply_period (t : Trigger) (e : Event) (lb : Loopback) :
    (t.apply e lb).1.period = t.period := by
  rcases hpr : Trigger.processEvent t.period e t.trackers lb with ⟨ts1, lb1, m⟩
  cases m
  · rw [trigger_apply_no_match_eq t e lb (by rw [hpr])]
  · rw [trigger_apply_matched_eq t e lb ts1 lb1 hpr]
    rcases hst : t.state with _ | _ <;>
      rcases hall : (if t.sequential then Trigger.seqInvalidate ts1 else ts1).all
        (fun tr => tr.state.is_active) with _ | _ <;> rfl

lemma noTokens_apply (t : Trigger) (e : Event) (lb : Loopback)
    (hp : t.period = none) (h : Trigger.noTokens t) :
    Trigger.noTokens (t.apply e lb).1 := by
  rcases hpr0 : Trigger.processEvent t.period e t.trackers lb with ⟨ts1, lb1, m⟩
  have hpr : Trigger.processEvent none e t.trackers lb = (ts1, lb1, m) := by
    rw [← hp]; exact hpr0
  cases m
  · rw [trigger_apply_no_match_eq t e lb (by rw [hpr0])]
    exact h
  · have hts1 : ∀ tr' ∈ ts1, ∀ k : Token,
        tr'.state ≠ TrackerState.Active (ExpirationTime.Until k) := by
      have h0 := processEvent_no_tokens e t.trackers lb h
      rw [hpr] at h0
      exact h0
    have hts2 : ∀ tr' ∈ (if t.sequential then Trigger.seqInvalidate ts1 else ts1),
        ∀ k : Token,
        tr'.state ≠ TrackerState.Active (ExpirationTime.Until k) := by
      intro tr' h' k
      by_cases hseq : t.sequential
      · rw [if_pos hseq] at h'
        rcases seqInvalidate_mem ts1 tr' h' with h1 | h1
        · exact hts1 tr' h1 k
        · rw [h1]; simp
      · rw [if_neg hseq] at h'
        exact hts1 tr' h' k
    rw [trigger_apply_matched_eq t e lb ts1 lb1 hpr0]
    rcases hst : t.state with _ | _ <;>
      rcases hall : (if t.sequential then Trigger.seqInvalidate ts1 else ts1).all
        (fun tr => tr.state.is_active) with _ | _
    · exact hts2
    · exact hts2
    · exact hts2
    · intro tr' htr' k
      simp only [List.mem_map] at htr'
      obtain ⟨tr0, _, hk⟩ := htr'
      rw [← hk]
      simp [Tracker.setActiveNever]

lemma noTokens_wakeup (t : Trigger) (token : Token)
    (h : Trigger.noTokens t) : Trigger.noTokens (t.wakeup token).1 := by
  have heq : t.wakeup token = (t, false) := by
    have heq0 : t.wakeup token =
        ({ t with trackers := (Trigger.wakeupList token t.trackers).1 },
         (Trigger.wakeupList token t.trackers).2) := rfl
    rw [heq0, wakeupList_noTokens token t.trackers h]
  rw [heq]
  exact h

lemma noTokens_reachable {t : Trigger} (h : Trigger.Reachable t)
    (hp : t.period = none) : Trigger.noTokens t := by
  induction h with
  | of_new keys period sequential =>
    intro tr htr k
    simp only [Trigger.new, List.mem_map] at htr
    obtain ⟨key, _, hk⟩ := htr
    rw [← hk]
    simp [Tracker.new]
  | of_clone_empty _ =>
    intro tr htr k
    simp only [Trigger.clone_empty, List.mem_map] at htr
    obtain ⟨t0, _, hk⟩ := htr
    rw [← hk]
    simp [Tracker.clone_empty]
  | of_apply e lb hr ih =>
    rename_i t0
    have hp0 : t0.period = none := by
      rw [← trigger_apply_period t0 e lb]
      exact hp
    exact noTokens_apply t0 e lb hp0 (ih hp0)
  | of_wakeup token hr ih =>
    rename_i t0
    have hp0 : t0.period = none := hp
    exact noTokens_wakeup t0 token (ih hp0)

lemma all_state_is_active (ts : List Tracker) :
    ts.all (fun tr => tr.state.is_active) = ts.all Tracker.is_active := rfl

/-! ## Claim theorems -/

/-- C1: `Trigger.apply`, on an event at least one tracker matched
(`hpr` ends in `true`), implements exactly the documented transition
table on the trigger's own state, where `ts2` is the tracker list after
the per-tracker update and the sequential pass: Inactive and all trackers
active gives state Active, every tracker overwritten to `Active(Never)`
(any stored expiry token discarded) and response Activates; Active and
not all trackers active gives state Inactive and response Releases; in
every other case the response is Matches and the trigger state is
unchanged. -/
theorem trigger_apply_transition_table (t : Trigger) (event : Event)
    (lb : Loopback) (ts1 ts2 : List Tracker) (lb1 : Loopback)
    (hpr : Trigger.processEvent t.period event t.trackers lb = (ts1, lb1, true))
    (hts2 : ts2 = if t.sequential then Trigger.seqInvalidate ts1 else ts1) :
    (t.state = TriggerState.Inactive → ts2.all Tracker.is_active = true →
      t.apply event lb =
        ({ t with trackers := ts2.map Tracker.setActiveNever
                  state := TriggerState.Active },
         lb1, TriggerResponse.Activates)) ∧
    (t.state = TriggerState.Active → ts2.all Tracker.is_active = false →
      t.apply event lb =
        ({ t with trackers := ts2, state := TriggerState.Inactive },
         lb1, TriggerResponse.Releases)) ∧
    ((t.state = TriggerState.Active ∧ ts2.all Tracker.is_active = true) ∨
     (t.state = TriggerState.Inactive ∧ ts2.all Tracker.is_active = false) →
      t.apply event lb =
        ({ t with trackers := ts2 }, lb1, TriggerResponse.Matches) ∧
      (t.apply event lb).1.state = t.state) := by
  have he := trigger_apply_matched_eq t event lb ts1 lb1 hpr
  rw [← hts2] at he
  rw [all_state_is_active] at he
  refine ⟨?_, ?_, ?_⟩
  · intro h1 h2
    rw [he, h1, h2]
  · intro h1 h2
    rw [he, h1, h2]
  · rintro (⟨h1, h2⟩ | ⟨h1, h2⟩)
    · rw [he, h1, h2]
      exact ⟨rfl, rfl⟩
    · rw [he, h1, h2]
      exact ⟨rfl, rfl⟩

/-- Witness for C1: a one-key trigger on an activating event takes the
Inactive-to-Activates row of the table. -/
theorem trigger_apply_transition_table_witness :
    (Trigger.new [testKey 1] none false).apply (testEvent 1 1) lb0 =
      ({ Trigger.new [testKey 1] none false with
           trackers :=
             ((Trigger.processEvent none (testEvent 1 1)
                 (Trigger.new [testKey 1] none false).trackers lb0).1).map
               Tracker.setActiveNever
           state := TriggerState.Active },
       lb0, TriggerResponse.Activates) :=
  (trigger_apply_transition_table (Trigger.new [testKey 1] none false)
    (testEvent 1 1) lb0
    (Trigger.processEvent none (testEvent 1 1)
      (Trigger.new [testKey 1] none false).trackers lb0).1
    (Trigger.processEvent none (testEvent 1 1)
      (Trigger.new [testKey 1] none false).trackers lb0).1
    lb0 rfl rfl).1 rfl rfl

/-- C3: on a sequential trigger, once some tracker matched the event, the
sequential pass used by `Trigger.apply` (visible in `Trigger.postProcess`)
keeps the longest prefix of active trackers, leaves non-active trackers
unchanged, and forces every active tracker after that prefix to Invalid. -/
theorem trigger_sequential_invalidation (t : Trigger) (event : Event)
    (lb : Loopback) (ts1 : List Tracker) (lb1 : Loopback)
    (hseq : t.sequential = true)
    (hpr : Trigger.processEvent t.period event t.trackers lb = (ts1, lb1, true)) :
    (Trigger.postProcess t event lb).1 =
      ts1.takeWhile Tracker.is_active ++
        (ts1.dropWhile Tracker.is_active).map Tracker.invalidateIfActive ∧
    (∀ tr ∈ ts1.takeWhile Tracker.is_active, tr.is_active = true) ∧
    (∀ tr : Tracker, tr.is_active = false → Tracker.invalidateIfActive tr = tr) ∧
    (∀ tr : Tracker, tr.is_active = true →
      Tracker.invalidateIfActive tr = { tr with state := TrackerState.Invalid }) := by
  refine ⟨?_, ?_, ?_, ?_⟩
  · have hppr : (Trigger.postProcess t event lb).1 =
        if t.sequential then
          Trigger.seqInvalidate
            (Trigger.processEvent t.period event t.trackers lb).1
        else (Trigger.processEvent t.period event t.trackers lb).1 := rfl
    rw [hppr, hpr, hseq]
    simp [seqInvalidate_eq]
  · intro tr htr
    exact List.mem_takeWhile_imp htr
  · intro tr h
    unfold Tracker.invalidateIfActive
    rw [h]
    simp
  · intro tr h
    unfold Tracker.invalidateIfActive
    rw [h]
    simp

/-- Witness for C3: a two-key sequential trigger receiving the second key
first; its second tracker activates out of order. -/
theorem trigger_sequential_invalidation_witness :
    (Trigger.postProcess (Trigger.new [testKey 1, testKey 2] none true)
        (testEvent 2 1) lb0).1 =
      ((Trigger.processEvent none (testEvent 2 1)
          (Trigger.new [testKey 1, testKey 2] none true).trackers lb0).1).takeWhile
        Tracker.is_active ++
        (((Trigger.processEvent none (testEvent 2 1)
            (Trigger.new [testKey 1, testKey 2] none true).trackers
            lb0).1).dropWhile Tracker.is_active).map Tracker.invalidateIfActive :=
  (trigger_sequential_invalidation (Trigger.new [testKey 1, testKey 2] none true)
    (testEvent 2 1) lb0
    (Trigger.processEvent none (testEvent 2 1)
      (Trigger.new [testKey 1, testKey 2] none true).trackers lb0).1
    lb0 rfl rfl).1

/-- C9: when `Trigger.apply` returns None (no tracker's key matched the
event), the trigger is unchanged — every tracker and the trigger's own
state as before — and the loopback handle is unchanged, so no wakeup was
requested during the call. -/
theorem trigger_apply_none_frame (t : Trigger) (event : Event) (lb : Loopback)
    (h : (t.apply event lb).2.2 = TriggerResponse.None) :
    (t.apply event lb).1 = t ∧ (t.apply event lb).2.1 = lb := by
  rcases hpr : Trigger.processEvent t.period event t.trackers lb with ⟨ts1, lb1, m⟩
  cases m
  · rw [trigger_apply_no_match_eq t event lb (by rw [hpr])]
    exact ⟨rfl, rfl⟩
  · exfalso
    rw [trigger_apply_matched_eq t event lb ts1 lb1 hpr] at h
    rcases hst : t.state with _ | _ <;>
      rcases hall : (if t.sequential then Trigger.seqInvalidate ts1 else ts1).all
        (fun tr => tr.state.is_active) with _ | _ <;>
      rw [hst, hall] at h <;> simp at h

/-- Witness for C9: an event whose code matches no tracker key. -/
theorem trigger_apply_none_frame_witness :
    ((Trigger.new [testKey 1] none false).apply (testEvent 5 1) lb0).1 =
      Trigger.new [testKey 1] none false ∧
    ((Trigger.new [testKey 1] none false).apply (testEvent 5 1) lb0).2.1 = lb0 :=
  trigger_apply_none_frame (Trigger.new [testKey 1] none false)
    (testEvent 5 1) lb0 rfl

/-- C4 (amended): for every trigger reachable through `Trigger.new`,
`clone_empty`, `apply` and `wakeup` whose tracker list is nonempty, the
trigger invariant holds: state Active implies every tracker is active,
and state Inactive implies not every tracker is active.  (The original
claim included the empty tracker list, where the invariant fails at
construction; see the counterexample.) -/
theorem trigger_invariant_reachable (t : Trigger) (hr : Trigger.Reachable t)
    (hne : t.trackers ≠ []) : Trigger.invariantHolds t := by
  have hs := strongInv_reachable hr
  constructor
  · intro hA
    refine List.all_eq_true.mpr ?_
    intro tr htr
    have h0 := hs.1 hA tr htr
    unfold Tracker.is_active
    rw [h0]
    rfl
  · intro hI
    rw [hs.2 hI hne]
    simp

/-- Witness for C4: the invariant holds for a freshly constructed
one-tracker trigger. -/
theorem trigger_invariant_reachable_witness :
    Trigger.invariantHolds (Trigger.new [testKey 1] none false) :=
  trigger_invariant_reachable (Trigger.new [testKey 1] none false)
    (Trigger.Reachable.of_new [testKey 1] none false)
    (by simp [Trigger.new])

/-- Counterexample for C4 as stated: a trigger constructed with an empty
key list is Inactive while `all` over its (empty) tracker list is
vacuously true, so the claimed invariant fails right after
`Trigger::new`. -/
theorem trigger_invariant_empty_counterexample :
    (Trigger.new [] none false).state = TriggerState.Inactive ∧
    (Trigger.new [] none false).trackers.all Tracker.is_active = true ∧
    ¬ Trigger.invariantHolds (Trigger.new [] none false) := by
  refine ⟨rfl, rfl, ?_⟩
  intro h
  exact h.2 rfl rfl

/-- C5: in a trigger constructed without a period (and reachable through
the public interface), every Active tracker carries
`ExpirationTime::Never`, so `wakeup` with any token leaves the trigger
unchanged and reports that nothing expired; in particular no tracker is
ever set to Invalid by `wakeup`. -/
theorem trigger_no_period_wakeup_noop (t : Trigger) (hr : Trigger.Reachable t)
    (hp : t.period = none) :
    (∀ tr ∈ t.trackers, ∀ k : Token,
      tr.state ≠ TrackerState.Active (ExpirationTime.Until k)) ∧
    ∀ token : Token, t.wakeup token = (t, false) := by
  have hnt := noTokens_reachable hr hp
  refine ⟨hnt, ?_⟩
  intro token
  have heq0 : t.wakeup token =
      ({ t with trackers := (Trigger.wakeupList token t.trackers).1 },
       (Trigger.wakeupList token t.trackers).2) := rfl
  rw [heq0, wakeupList_noTokens token t.trackers hnt]

/-- Witness for C5: a trigger without a period, after activating its
tracker, is untouched by a `wakeup` with token 0. -/
theorem trigger_no_period_wakeup_noop_witness :
    ((Trigger.new [testKey 1] none false).apply (testEvent 1 1) lb0).1.wakeup 0 =
      (((Trigger.new [testKey 1] none false).apply (testEvent 1 1) lb0).1, false) :=
  (trigger_no_period_wakeup_noop
    ((Trigger.new [testKey 1] none false).apply (testEvent 1 1) lb0).1
    (Trigger.Reachable.of_apply (testEvent 1 1) lb0
      (Trigger.Reachable.of_new [testKey 1] none false))
    rfl).2 0

/-- C2: for a dispatcher with send-keys [A, B], `map_event` on Activates
for event E appends exactly [E, A-press, B-press] in configured order and
records E; a later Releases on event Eq appends exactly
[B-release, A-release, Eq] synthesized in reverse order from the recorded
activating event E; synthesized presses carry value 1 and releases value
0, both with the Withholdable flag cleared. -/
theorem dispatcher_send_keys_order (A B : Key) (E : Event)
    (d : EventDispatcher) (out : List Event) (log : WarnLog)
    (hk : d.send_keys = [A, B]) :
    d.map_event E TriggerResponse.Activates out log =
      ({ d with activating_event := some E },
       out ++ [E, synthesizePress E A, synthesizePress E B], log) ∧
    (∀ (E2 : Event) (out2 : List Event) (log2 : WarnLog),
      ({ d with activating_event := some E } : EventDispatcher).map_event E2
          TriggerResponse.Releases out2 log2 =
        ({ d with activating_event := some E },
         out2 ++ [synthesizeRelease E B, synthesizeRelease E A, E2], log2)) ∧
    (∀ (K : Key) (E0 : Event),
      (synthesizePress E0 K).value = 1 ∧
      (synthesizePress E0 K).flags.withholdable = false ∧
      (synthesizeRelease E0 K).value = 0 ∧
      (synthesizeRelease E0 K).flags.withholdable = false) := by
  refine ⟨?_, ?_, ?_⟩
  · simp [EventDispatcher.map_event, hk]
  · intro E2 out2 log2
    simp [EventDispatcher.map_event, hk]
  · intro K E0
    exact ⟨rfl, rfl, rfl, rfl⟩

/-- Witness for C2: concrete dispatcher with two send-keys on a concrete
activating event. -/
theorem dispatcher_send_keys_order_witness :
    (EventDispatcher.from_send_keys [testKey 10, testKey 11]).map_event
        (testEvent 1 1) TriggerResponse.Activates [] [] =
      ({ EventDispatcher.from_send_keys [testKey 10, testKey 11] with
           activating_event := some (testEvent 1 1) },
       [testEvent 1 1, synthesizePress (testEvent 1 1) (testKey 10),
        synthesizePress (testEvent 1 1) (testKey 11)], []) :=
  (dispatcher_send_keys_order (testKey 10) (testKey 11) (testEvent 1 1)
    (EventDispatcher.from_send_keys [testKey 10, testKey 11]) [] [] rfl).1

/-- C8: `map_event` on Releases with no recorded activating event
substitutes the current event, records nothing as failed, emits the
deduplicated warning (only the first time the message is seen), and
produces the normal release shape: reverse-order synthesized releases
followed by the original event. -/
theorem dispatcher_release_without_activation (d : EventDispatcher)
    (E : Event) (out : List Event) (log : WarnLog)
    (h : d.activating_event = none) :
    d.map_event E TriggerResponse.Releases out log =
      (d, out ++ d.send_keys.reverse.map (synthesizeRelease E) ++ [E],
       (warn_once releaseWithoutActivationWarning log).1) ∧
    releaseWithoutActivationWarning ∈
      (warn_once releaseWithoutActivationWarning log).1 ∧
    (∀ log2 : WarnLog, releaseWithoutActivationWarning ∈ log2 →
      warn_once releaseWithoutActivationWarning log2 = (log2, false)) ∧
    (releaseWithoutActivationWarning ∉ log →
      (warn_once releaseWithoutActivationWarning log).2 = true) := by
  refine ⟨?_, ?_, ?_, ?_⟩
  · simp [EventDispatcher.map_event, h]
  · unfold warn_once
    by_cases h2 : releaseWithoutActivationWarning ∈ log
    · simp [h2]
    · simp [h2]
  · intro log2 h2
    simp [warn_once, h2]
  · intro h2
    simp [warn_once, h2]

/-- Witness for C8: a dispatcher with one send-key that has never
activated, receiving a Releases response. -/
theorem dispatcher_release_without_activation_witness :
    (EventDispatcher.from_send_keys [testKey 10]).map_event (testEvent 1 0)
        TriggerResponse.Releases [] [] =
      (EventDispatcher.from_send_keys [testKey 10],
       [synthesizeRelease (testEvent 1 0) (testKey 10), testEvent 1 0],
       [releaseWithoutActivationWarning]) :=
  (dispatcher_release_without_activation
    (EventDispatcher.from_send_keys [testKey 10]) (testEvent 1 0) [] [] rfl).1

/-- C7: `clone_empty` on Tracker, Trigger and Hook preserves all static
configuration — keys, ranges, period, sequential flag, send-keys, effect
lists and the withholding flag — while resetting the runtime state:
cloned trackers are Inactive, the cloned trigger state is Inactive, and
the clone records no activating event. -/
theorem clone_empty_spec {σ : Type} (h : Hook σ) :
    h.clone_empty.effects = h.effects ∧
    h.clone_empty.release_effects = h.release_effects ∧
    h.clone_empty.mark_withholdable = h.mark_withholdable ∧
    h.clone_empty.event_dispatcher.send_keys = h.event_dispatcher.send_keys ∧
    h.clone_empty.event_dispatcher.activating_event = none ∧
    h.clone_empty.trigger = h.trigger.clone_empty ∧
    h.trigger.clone_empty.period = h.trigger.period ∧
    h.trigger.clone_empty.sequential = h.trigger.sequential ∧
    h.trigger.clone_empty.state = TriggerState.Inactive ∧
    h.trigger.clone_empty.trackers = h.trigger.trackers.map Tracker.clone_empty ∧
    (∀ t : Tracker, (Tracker.clone_empty t).key = t.key ∧
      (Tracker.clone_empty t).range = t.range ∧
      (Tracker.clone_empty t).state = TrackerState.Inactive) :=
  ⟨rfl, rfl, rfl, rfl, rfl, rfl, rfl, rfl, rfl, rfl, fun _ => ⟨rfl, rfl, rfl⟩⟩

lemma mem_hashSetInsert (s : List Capability) (c x : Capability) :
    x ∈ hashSetInsert s c ↔ x ∈ s ∨ x = c := by
  unfold hashSetInsert
  by_cases h : c ∈ s
  · simp only [h, if_true]
    constructor
    · exact Or.inl
    · rintro (hx | rfl)
      · exact hx
      · exact h
  · simp [h]

lemma mem_hashSetExtend (l : List Capability) :
    ∀ (s : List Capability) (x : Capability),
      x ∈ hashSetExtend s l ↔ x ∈ s ∨ x ∈ l := by
  induction l with
  | nil => intro s x; simp [hashSetExtend]
  | cons c rest ih =>
    intro s x
    have : hashSetExtend s (c :: rest) = hashSetExtend (hashSetInsert s c) rest := rfl
    rw [this, ih, mem_hashSetInsert]
    simp only [List.mem_cons]
    tauto

lemma nodup_hashSetInsert (s : List Capability) (c : Capability)
    (h : s.Nodup) : (hashSetInsert s c).Nodup := by
  unfold hashSetInsert
  by_cases hc : c ∈ s
  · simp [hc, h]
  · simp [List.nodup_append, h, hc]

lemma nodup_hashSetExtend (l : List Capability) :
    ∀ s : List Capability, s.Nodup → (hashSetExtend s l).Nodup := by
  induction l with
  | nil => exact fun s h => h
  | cons c rest ih =>
    intro s h
    exact ih (hashSetInsert s c) (nodup_hashSetInsert s c h)

lemma additionalCapsStep_eq (ks sks : List Key) (acc : List Capability)
    (c : Capability) :
    additionalCapsStep ks sks acc c =
      if capQualifies ks c then
        hashSetExtend acc (sks.map (synthesizeCap c))
      else acc := by
  unfold additionalCapsStep capQualifies
  rcases hm : CapMatch.listMax (ks.map (fun key => key.matches_cap c)) with _ | m
  · simp [hm]
  · rcases m <;> simp [hm]

lemma foldl_additionalCapsStep (ks sks : List Key) :
    ∀ (caps : List Capability) (acc : List Capability),
      caps.foldl (additionalCapsStep ks sks) acc =
        hashSetExtend acc
          ((caps.filter (capQualifies ks)).flatMap
            (fun c => sks.map (synthesizeCap c))) := by
  intro caps
  induction caps with
  | nil => intro acc; rfl
  | cons c rest ih =>
    intro acc
    rw [List.foldl_cons, additionalCapsStep_eq]
    by_cases hq : capQualifies ks c
    · rw [if_pos hq, ih, List.filter_cons_of_pos hq, List.flatMap_cons]
      unfold hashSetExtend
      rw [List.foldl_append]
    · rw [if_neg hq, ih, List.filter_cons_of_neg (by simpa using hq)]

/-- C6: `generate_additional_caps` appends exactly the deduplicated list
of send-key capabilities synthesized from the qualifying input
capabilities (best tracker-key match Yes or Maybe): nothing is emitted
for non-qualifying or trackerless inputs, every appended capability's
value range is exactly [0, 1], the appended list has no duplicates, and
no input capability is copied through. -/
theorem generate_additional_caps_spec (d : EventDispatcher)
    (trigger : Trigger) (caps caps_out : List Capability) :
    d.generate_additional_caps trigger caps caps_out =
      caps_out ++ additionalCapsList d trigger caps ∧
    (additionalCapsList d trigger caps).Nodup ∧
    (∀ cap : Capability,
      cap ∈ additionalCapsList d trigger caps ↔
        ∃ cap_in ∈ caps,
          capQualifies (trigger.trackers.map (fun t => t.key)) cap_in = true ∧
          ∃ k ∈ d.send_keys, cap = synthesizeCap cap_in k) ∧
    (∀ cap ∈ additionalCapsList d trigger caps,
      cap.value_range = Range.new (some 0) (some 1)) := by
  have h3 : ∀ cap : Capability,
      cap ∈ additionalCapsList d trigger caps ↔
        ∃ cap_in ∈ caps,
          capQualifies (trigger.trackers.map (fun t => t.key)) cap_in = true ∧
          ∃ k ∈ d.send_keys, cap = synthesizeCap cap_in k := by
    intro cap
    unfold additionalCapsList listDedup
    rw [mem_hashSetExtend]
    simp only [List.not_mem_nil, false_or, List.mem_flatMap, List.mem_filter,
               List.mem_map]
    constructor
    · rintro ⟨c, ⟨hc, hq⟩, k, hk, hs⟩
      exact ⟨c, hc, hq, k, hk, hs.symm⟩
    · rintro ⟨c, hc, hq, k, hk, hs⟩
      exact ⟨c, ⟨hc, hq⟩, k, hk, hs.symm⟩
  refine ⟨?_, ?_, h3, ?_⟩
  · unfold EventDispatcher.generate_additional_caps additionalCapsList listDedup
    show caps_out ++
        caps.foldl
          (additionalCapsStep (trigger.trackers.map (fun t => t.key))
            d.send_keys) [] = _
    rw [foldl_additionalCapsStep]
  · unfold additionalCapsList listDedup
    exact nodup_hashSetExtend _ [] List.nodup_nil
  · intro cap hcap
    obtain ⟨cap_in, _, _, k, _, hs⟩ := (h3 cap).mp hcap
    rw [hs]
    rfl

lemma markEvent_cases {σ : Type} (h : Hook σ) (event : Event)
    (response : TriggerResponse) :
    h.markEvent event response = event ∨
    h.markEvent event response =
      { event with flags := event.flags.setWithholdable } := by
  unfold Hook.markEvent
  by_cases hm : h.mark_withholdable
  · rcases response <;> simp [hm]
  · simp [hm]

lemma hook_apply_events (σ : Type) (h : Hook σ) (event : Event)
    (events_out : List Event) (s : σ) (lb : Loopback) (log : WarnLog) :
    (h.apply event events_out s lb log).2.1 =
      (h.event_dispatcher.map_event
        (h.markEvent event (h.trigger.apply event lb).2.2)
        (h.trigger.apply event lb).2.2 events_out log).2.1 := rfl

/-- C10: every call to `Hook.apply` appends the (possibly
Withholdable-marked) original event exactly once, at a fixed position,
surrounded only by the synthesized send-key events: the number of
appended events is 1 plus the number of send-keys when the trigger
response is Activates or Releases (original first, respectively last)
and exactly 1 otherwise — a hook never drops an input event. -/
theorem hook_apply_output_shape {σ : Type} (h : Hook σ) (event : Event)
    (events_out : List Event) (s : σ) (lb : Loopback) (log : WarnLog) :
    ∃ pre post : List Event,
      (h.apply event events_out s lb log).2.1 =
        events_out ++ pre ++
          [h.markEvent event (h.trigger.apply event lb).2.2] ++ post ∧
      ((h.trigger.apply event lb).2.2 = TriggerResponse.Activates →
        pre = [] ∧ post.length = h.event_dispatcher.send_keys.length) ∧
      ((h.trigger.apply event lb).2.2 = TriggerResponse.Releases →
        post = [] ∧ pre.length = h.event_dispatcher.send_keys.length) ∧
      (((h.trigger.apply event lb).2.2 = TriggerResponse.Matches ∨
        (h.trigger.apply event lb).2.2 = TriggerResponse.None) →
        pre = [] ∧ post = []) ∧
      (h.markEvent event (h.trigger.apply event lb).2.2 = event ∨
       h.markEvent event (h.trigger.apply event lb).2.2 =
         { event with flags := event.flags.setWithholdable }) := by
  rw [hook_apply_events]
  rcases hres : (h.trigger.apply event lb).2.2 with _ | _ | _ | _
  · -- None
    refine ⟨[], [], ?_, ?_, ?_, ?_, markEvent_cases h event _⟩
    · simp [EventDispatcher.map_event]
    · intro hc; cases hc
    · intro hc; cases hc
    · intro _; exact ⟨rfl, rfl⟩
  · -- Matches
    refine ⟨[], [], ?_, ?_, ?_, ?_, markEvent_cases h event _⟩
    · simp [EventDispatcher.map_event]
    · intro hc; cases hc
    · intro hc; cases hc
    · intro _; exact ⟨rfl, rfl⟩
  · -- Activates
    refine ⟨[],
      h.event_dispatcher.send_keys.map
        (synthesizePress (h.markEvent event TriggerResponse.Activates)),
      ?_, ?_, ?_, ?_, markEvent_cases h event _⟩
    · simp [EventDispatcher.map_event]
    · intro _
      exact ⟨rfl, by simp⟩
    · intro hc; cases hc
    · intro hc; rcases hc with hc | hc <;> cases hc
  · -- Releases
    refine ⟨h.event_dispatcher.send_keys.reverse.map
        (synthesizeRelease
          (match h.event_dispatcher.activating_event with
           | some a => a
           | none => h.markEvent event TriggerResponse.Releases)),
      [], ?_, ?_, ?_, ?_, markEvent_cases h event _⟩
    · rcases hae : h.event_dispatcher.activating_event with _ | a <;>
        simp [EventDispatcher.map_event, hae]
    · intro hc; cases hc
    · intro _
      exact ⟨rfl, by simp⟩
    · intro hc; rcases hc with hc | hc <;> cases hc
